import Mathlib

/-!
Shallow embedding of the johnsiilver/fs repository: the in-memory `Simple`
tree store (simple.go), the waterfall cache coordinator (cache/cache.go),
and the disk cache tier's expiration index (cache/disk/disk.go).
Bytes are lists of naturals, handles are modelled by the bytes they read,
and the mutexes / goroutines of the source are out of scope except where a
claim is about the state they guard.
-/

namespace FsSpec

/-- Go byte slices ([]byte). -/
abbrev Bytes := List Nat

/-- Error values of the embedded operations. `msg` stands for the anonymous
`fmt.Errorf`/`errors.New` errors of the source, `locked` for the
"Simple is locked from writing" error, and `nilFile` marks a dereference of
a nil `*file` (a Go runtime panic). -/
inductive FsErr where
  | notExist
  | exist
  | locked
  | invalid
  | nilFile
  | msg (s : String)
deriving DecidableEq

/-- strings.TrimPrefix for a one-character prefix (the source only ever
trims the one-character strings "." and "/"). -/
def trimLead (c : Char) (s : String) : String :=
  match s.toList with
  | [] => s
  | d :: rest => if d = c then ⟨rest⟩ else s

/-- strings.HasSuffix(s, "/"): the suffix tested by the source is the single
separator character. -/
def endsSlash (s : String) : Bool :=
  match s.toList.getLast? with
  | some c => c == '/'
  | none => false

/-- strings.Split for a one-character separator, on the character list:
splitting the empty string yields one empty field, and every separator
starts a new field. -/
def splitChars (sep : Char) : List Char → List (List Char)
  | [] => [[]]
  | c :: rest =>
    if c = sep then [] :: splitChars sep rest
    else
      match splitChars sep rest with
      | [] => [[c]]
      | h :: t => (c :: h) :: t

/-- strings.Split(s, sep) for a one-character separator. -/
def goSplit (s : String) (sep : Char) : List String :=
  (splitChars sep s.toList).map (fun cs => ⟨cs⟩)

/-- The node type of simple.go (`file`). `modTime` is omitted (no settled
claim mentions it); `offset` is the read cursor the source stores on the
node itself; `objects` is the name-sorted child list. -/
inductive SFile where
  | mk (name : String) (content : Bytes) (offset : Nat) (isDir : Bool)
       (objects : List SFile)

def SFile.name : SFile → String
  | .mk n _ _ _ _ => n

def SFile.content : SFile → Bytes
  | .mk _ c _ _ _ => c

def SFile.offset : SFile → Nat
  | .mk _ _ o _ _ => o

def SFile.isDir : SFile → Bool
  | .mk _ _ _ d _ => d

def SFile.objects : SFile → List SFile
  | .mk _ _ _ _ o => o

/-- Go's byte-wise strict string order, on character lists (the store is
ASCII by contract, where byte-wise and character-wise order agree). -/
def charsLt : List Char → List Char → Bool
  | [], [] => false
  | [], _ :: _ => true
  | _ :: _, [] => false
  | a :: as, b :: bs =>
    if a.toNat < b.toNat then true
    else if b.toNat < a.toNat then false
    else charsLt as bs

/-- Go `s1 < s2` on strings. -/
def strLt (a b : String) : Bool := charsLt a.toList b.toList

/-- Go `s1 >= s2` on strings. -/
def strGe (a b : String) : Bool := !(strLt a b)

/-- The sort.Search call inside file.Search: on the name-sorted child list
the binary search yields the first element whose name is not below the
target, which is then compared for equality. -/
def searchList (nm : String) : List SFile → Option SFile
  | [] => none
  | g :: rest =>
    if strGe g.name nm then (if g.name = nm then some g else none)
    else searchList nm rest

/-- file.Search: error on a non-directory receiver, ErrNotExist on an empty
child list or a failed binary search. -/
def SFile.search (f : SFile) (nm : String) : Except FsErr SFile :=
  if !f.isDir then .error (.msg ("not a directory"))
  else if f.objects.isEmpty then .error .notExist
  else
    match searchList nm f.objects with
    | some g => .ok g
    | none => .error .notExist

/-- append followed by sort.Slice ordering by Name: on a sorted child list
with pairwise distinct names (the tree invariant) this is ordered
insertion. -/
def insertByName (nf : SFile) : List SFile → List SFile
  | [] => [nf]
  | g :: rest =>
    if strLt nf.name g.name then nf :: g :: rest else g :: insertByName nf rest

/-- file.createDir. The source's two throwaway name-slice loops are dead
code; its not-a-directory panic is unreachable from WriteFile, which only
calls createDir on directories. -/
def SFile.createDir : SFile → String → SFile
  | .mk n c o d objs, nm => .mk n c o d (insertByName (.mk nm [] 0 true []) objs)

/-- file.addFile (panic unreachable for the same reason as createDir). -/
def SFile.addFile : SFile → SFile → SFile
  | .mk n c o d objs, nf => .mk n c o d (insertByName nf objs)

/-- The lookup loop of Simple.Open: walk the path segments from a directory
with file.Search. -/
def walkPath (dir : SFile) : List String → Except FsErr SFile
  | [] => .ok dir
  | p :: rest =>
    match dir.search p with
    | .error e => .error e
    | .ok f => walkPath f rest

/-- The Simple store. The write mutex is omitted (single-threaded
embedding); the other fields are those of the source. `cache` is the flat
Pearson lookup table, a slice of possibly-nil file pointers. -/
structure Simple where
  root : SFile
  ro : Bool
  pearson : Bool
  cache : List (Option SFile)
  items : Nat

/-- Functional options of NewSimple. -/
abbrev SimpleOption := Simple → Simple

/-- WithPearson: documented to enable the Pearson lookup cache by setting
s.pearson. -/
def withPearson : SimpleOption := fun s => { s with pearson := true }

/-- NewSimple. The source returns the bare struct literal and never applies
`options`, so the `pearson` field stays false whatever options are passed. -/
def newSimple (options : List SimpleOption) : Simple :=
  { root := .mk (".") [] 0 true [], ro := false, pearson := false,
    cache := [], items := 0 }

/-- Modelled from the spec: the repository's `pearson` hash function (used
by the fast-lookup branch) is not under src/ - only its callers are. The
spec fixes only that lookups use `hash(full path) mod (entry count + 1)`,
so the hash itself is kept as an arbitrary parameter. -/
def PearsonHash : Type := String → Nat

/-- Simple.Open. The two strings.TrimPrefix calls of the source discard
their results (their return values are never assigned), so no trimming
happens on the lookup path. The fast branch returns `s.cache[i]`, which may
be a nil pointer (`none`). -/
def openSimple (hash : PearsonHash) (s : Simple) (name : String) :
    Except FsErr (Option SFile) :=
  if name = ("/") ∨ name = ("") ∨ name = (".") then .ok (some s.root)
  else
    let sp := goSplit name '/'
    if s.pearson && s.ro then
      let i := hash name % (s.cache.length + 1)
      if s.cache.length ≤ i then .error .notExist
      else .ok (s.cache.getD i none)
    else
      match walkPath s.root sp with
      | .error e => .error e
      | .ok f => .ok (some f)

/-- Simple.ReadFile. A nil fast-table slot makes the source's type
assertion produce a nil receiver whose IsDir() call panics: modelled as
`nilFile`. -/
def readFileSimple (hash : PearsonHash) (s : Simple) (name : String) :
    Except FsErr Bytes :=
  match openSimple hash s name with
  | .error e => .error e
  | .ok none => .error .nilFile
  | .ok (some f) =>
    if f.isDir then .error (.msg ("cannot read a directory")) else .ok f.content

/-- Replace the (unique) child named `nm` by `sub`, preserving position:
the in-place mutation of the child the walk descends into. -/
def replaceChild (nm : String) (sub : SFile) : SFile → SFile
  | .mk n c o d objs =>
    .mk n c o d (objs.map (fun g => if g.name = nm then sub else g))

/-- The directory walk and terminal insert of Simple.WriteFile. The source
mutates the tree in place, but every error return happens before any
createDir/addFile call takes effect on an error path: a freshly created
intermediate directory is empty, so all later Search calls in it miss and
the write then succeeds. Returning the untouched tree together with the
error therefore matches the source's observable state. The "wtf?" branch is
the source's unreachable panic after a createDir whose re-Search fails. -/
def writeAt (dir : SFile) (segs : List String) (content : Bytes) :
    Except FsErr SFile :=
  match segs with
  | [] => .error .invalid
  | [n] =>
    match dir.search n with
    | .ok _ => .error .exist
    | .error _ => .ok (dir.addFile (.mk n content 0 false []))
  | seg :: rest =>
    match dir.search seg with
    | .error _ =>
      let dir' := dir.createDir seg
      match dir'.search seg with
      | .error _ => .error (.msg ("wtf?"))
      | .ok sub =>
        match writeAt sub rest content with
        | .error e => .error e
        | .ok sub' => .ok (replaceChild seg sub' dir')
    | .ok sub =>
      if !sub.isDir then .error (.msg ("not a directory element"))
      else
        match writeAt sub rest content with
        | .error e => .error e
        | .ok sub' => .ok (replaceChild seg sub' dir)

/-- The trimmed segment list WriteFile operates on:
name = TrimPrefix(name, "."); name = TrimPrefix(name, "/");
sp = strings.Split(name, "/"). -/
def writeSegs (name : String) : List String :=
  goSplit (trimLead '/' (trimLead '.' name)) '/'

/-- Simple.WriteFile. The empty-name panic of the source is modelled as a
`msg` error; note the read-only check precedes it, so a frozen store
returns `locked` even for the empty name. -/
def writeFileSimple (s : Simple) (name : String) (content : Bytes) :
    Except FsErr Unit × Simple :=
  if s.ro then (.error .locked, s)
  else if name = ("") then
    (.error (.msg ("panic: cannot write a file at root")), s)
  else if endsSlash name then
    (.error (.msg ("cannot write a file directory")), s)
  else
    match writeAt s.root (writeSegs name) content with
    | .error e => (.error e, s)
    | .ok root' => (.ok (), { s with root := root', items := s.items + 1 })

/-- path.Join as used by fs.WalkDir starting at root ".". -/
def joinPath (p n : String) : String :=
  if p = (".") then n else p ++ ("/") ++ n

/-- fs.WalkDir's preorder enumeration as used by RO: directory entries are
skipped by the callback, files are collected with their slash-joined paths,
children visited in child-list (name-sorted) order. -/
def walkCollect (p : String) : SFile → List (String × SFile)
  | .mk n c o d objs =>
    if d then
      (objs.attach.map (fun x => walkCollect (joinPath p x.1.name) x.1)).flatten
    else [(p, .mk n c o d objs)]
termination_by f => sizeOf f
decreasing_by
  simp_wf
  have h := List.sizeOf_lt_of_mem x.2
  omega

/-- Simple.RO. When pearson is set, the table slot for every walked file is
`hash(path) mod (len(s.cache) + 1)` where s.cache is still the PREVIOUS
cache (empty on a first freeze), while Open later reads the table back
modulo the new length + 1. The slice write `sl[i] = d` is modelled by
List.set (out-of-range writes cannot arise on a first freeze, where the
index is always 0). -/
def roSimple (hash : PearsonHash) (s : Simple) : Simple :=
  let s1 : Simple := { s with ro := true }
  if s1.pearson then
    let files := walkCollect (".") s1.root
    let sl := files.foldl
      (fun sl pf => sl.set (hash pf.1 % (s1.cache.length + 1)) (some pf.2))
      (List.replicate s1.items (none : Option SFile))
    { s1 with cache := sl }
  else s1

/-- Set the read cursor of a node. -/
def SFile.setOffset : SFile → Nat → SFile
  | .mk n c _ d objs, off => .mk n c off d objs

/-- Apply `g` to the (unique) child named `nm`. -/
def updateChild (nm : String) (g : SFile → SFile) : SFile → SFile
  | .mk n c o d objs =>
    .mk n c o d (objs.map (fun ch => if ch.name = nm then g ch else ch))

/-- Apply `g` to the node at path `segs` below `dir`. -/
def updateAt (segs : List String) (g : SFile → SFile) (dir : SFile) : SFile :=
  match segs with
  | [] => g dir
  | p :: rest => updateChild p (updateAt rest g) dir

/-- Simple.Open followed by io.ReadAll on the returned handle, on the
tree-walk branch (the store is not frozen with a Pearson table). The handle
Open returns IS the stored node (`return dir` in the source, no copy), so
the offset advance of the read lands in the tree: ReadAll yields
content[offset:] and leaves offset = len(content) on the stored node. -/
def readAllViaOpen (s : Simple) (name : String) :
    Except FsErr Bytes × Simple :=
  let segs : List String :=
    if name = ("/") ∨ name = ("") ∨ name = (".") then [] else goSplit name '/'
  match walkPath s.root segs with
  | .error e => (.error e, s)
  | .ok f =>
    if f.isDir then (.error (.msg ("cannot Read a directory")), s)
    else
      (.ok (f.content.drop f.offset),
       { s with
          root := updateAt segs (fun g => g.setOffset g.content.length) s.root })

/-- An entry of the disk tier's expiration index (disk.go `expireKey`):
last-touch time (an instant, modelled as an integer) and entry name. -/
structure ExpireKey where
  time : Int
  name : String
deriving DecidableEq

/-- expireKey.Less from the source: `e.Less(than) = than.Time.Before(e.Time)`.
The comparison is reversed (the LLRB-least item is the newest) and the name
field is never consulted. -/
def expireLess (e than : ExpireKey) : Bool := decide (than.time < e.time)

/-- Two keys collate as equal in the LLRB when neither is Less than the
other: with the source's Less this is exactly equality of times, whatever
the names. -/
def expireSame (a b : ExpireKey) : Bool := !(expireLess a b) && !(expireLess b a)

/-- GoLLRB ReplaceOrInsert on the expiration index: an existing item that
collates equal to the new key is replaced, otherwise the key is added. -/
def replaceOrInsert (l : List ExpireKey) (k : ExpireKey) : List ExpireKey :=
  if l.any (fun x => expireSame x k) then
    l.map (fun x => if expireSame x k then k else x)
  else k :: l

/-- One pass of expireLoop: AscendLessThan(now - expireDuration) visits each
item x with x.Less(pivot) - under the source's reversed Less these are the
entries whose time lies strictly AFTER the threshold - and expireItem
deletes every visited item. -/
def sweepPass (l : List ExpireKey) (pivot : ExpireKey) : List ExpireKey :=
  l.filter (fun x => !(expireLess x pivot))

/-- The disk cache tier (disk.go FS): cache root directory, the expiration
index, and the wrapped os-backed byte store modelled as a path-to-bytes
association list. The sweep goroutine, its channel and the mutex are not
modelled; each index touch takes the current instant as a parameter. -/
structure DiskFS where
  location : String
  index : List ExpireKey
  backing : List (String × Bytes)

/-- path.Join for the argument shapes arising here (both parts nonempty,
no dot or slash at the edges), where Clean is the identity and Join is
concatenation with one separator. -/
def pathJoin (a b : String) : String :=
  if a = ("") then b else if b = ("") then a else a ++ ("/") ++ b

/-- A lookup in the modelled os-backed store. -/
def osLookup (backing : List (String × Bytes)) (p : String) : Option Bytes :=
  (backing.find? (fun kv => kv.1 == p)).map (fun kv => kv.2)

/-- disk.FS.Open: open location/name in the backing store, then upsert
(now, name) into the expiration index. The returned handle is modelled by
the bytes a fresh read of it yields. -/
def diskOpen (fs : DiskFS) (now : Int) (name : String) :
    Except FsErr Bytes × DiskFS :=
  match osLookup fs.backing (pathJoin fs.location name) with
  | none => (.error .notExist, fs)
  | some b => (.ok b, { fs with index := replaceOrInsert fs.index ⟨now, name⟩ })

/-- disk.FS.ReadFile. The source calls f.Open(path.Join(f.location, name)),
joining the location a second time even though Open already joins it, and
afterwards touches the index once more with the bare name. io.ReadAll of
the fresh handle yields the opened bytes. -/
def diskReadFile (fs : DiskFS) (now : Int) (name : String) :
    Except FsErr Bytes × DiskFS :=
  match diskOpen fs now (pathJoin fs.location name) with
  | (.error e, fs1) => (.error e, fs1)
  | (.ok b, fs1) =>
    (.ok b, { fs1 with index := replaceOrInsert fs1.index ⟨now, name⟩ })

/-- disk.FS.Stat: a pure delegation to the backing store's Stat on the
joined path (the FileInfo result is modelled by the blob size). The
expiration index is neither consulted nor modified. -/
def diskStat (fs : DiskFS) (name : String) : Except FsErr Nat × DiskFS :=
  match osLookup fs.backing (pathJoin fs.location name) with
  | none => (.error .notExist, fs)
  | some b => (.ok b.length, fs)

/-- A cache.CacheFS tier as seen by the coordinator, abstracted by what
each call returns; handles are modelled by the bytes they read. -/
structure Tier where
  readFileT : String → Except FsErr Bytes
  openT : String → Except FsErr Bytes
  openFileT : String → Nat → Except FsErr Bytes

/-- os.O_RDONLY: zero on every platform Go supports. -/
def O_RDONLY : Nat := 0

/-- cache.isFlagSet: flags&flag != 0. -/
def isFlagSet (flags flag : Nat) : Bool := flags &&& flag != 0

/-- cache.FS.Open: try the cache tier, fall back to the store tier on any
cache error. -/
def cfsOpen (cacheT storeT : Tier) (name : String) : Except FsErr Bytes :=
  match cacheT.openT name with
  | .ok f => .ok f
  | .error _ => storeT.openT name

/-- cache.FS.OpenFile: the cascading open when the O_RDONLY bit tests set,
otherwise a direct delegation to the store tier's OpenFile. -/
def cfsOpenFile (cacheT storeT : Tier) (name : String) (flags : Nat) :
    Except FsErr Bytes :=
  if isFlagSet flags O_RDONLY then cfsOpen cacheT storeT name
  else storeT.openFileT name flags

/-- cache.FS.ReadFile: a cache hit is returned at once; on a cache error
the store tier's result - its bytes or its error - is returned. The
asynchronous backfill goroutine only writes into the cache tier and never
changes the value returned to the caller; being concurrency, it is not
modelled. -/
def cfsReadFile (cacheT storeT : Tier) (name : String) : Except FsErr Bytes :=
  match cacheT.readFileT name with
  | .ok b => .ok b
  | .error _ => storeT.readFileT name

/-- A hash instance used where the store never reaches the fast branch. -/
def hashZero : PearsonHash := fun _ => 0

/-- C1: refuted on the code as written (the spec states the intent). On a
fresh non-frozen Simple, WriteFile("/a", "hi") succeeds (WriteFile trims
the leading separator and stores the file under "a"), but ReadFile on the
very same path string "/a" returns ErrNotExist, because Open discards the
results of its strings.TrimPrefix calls and walks the segments ["", "a"]. -/
theorem c1_read_after_write_same_string_fails :
    (writeFileSimple (newSimple []) ("/a") [104, 105]).1 = .ok () ∧
    readFileSimple hashZero
        (writeFileSimple (newSimple []) ("/a") [104, 105]).2 ("/a")
      = .error .notExist := by
  exact ⟨rfl, rfl⟩

/-- The index built by two upserts: (t0, "a") then (t0+10m, "b"), times in
minutes from t0. -/
def c3index : List ExpireKey :=
  replaceOrInsert (replaceOrInsert [] ⟨0, ("a")⟩) ⟨10, ("b")⟩

/-- C3: refuted on the code as written (the spec states the intent). With
entries touched at t0 and t0+10m and TTL=5m evaluated at t0+12m (threshold
t0+7m), the sweep pass evicts exactly the FRESH entry "b" and keeps the
stale entry "a" - the reverse of the claim - because expireKey.Less is
reversed, so AscendLessThan(threshold) visits the entries touched after the
threshold. -/
theorem c3_sweep_evicts_fresh_keeps_stale :
    c3index = [⟨10, ("b")⟩, ⟨0, ("a")⟩] ∧
    sweepPass c3index ⟨7, ("")⟩ = [⟨0, ("a")⟩] := by
  exact ⟨rfl, rfl⟩

/-- A disk tier rooted at "cache" whose backing store holds one blob. -/
def c4fs0 : DiskFS := ⟨("cache"), [], [(("cache/a"), [7])]⟩

/-- C4 counterexample: opening the same name twice, at t=0 and t=1, leaves
TWO index entries for the name "a" - ReplaceOrInsert collates expireKeys by
time only, so the second touch does not replace the first. -/
theorem c4_two_touches_duplicate_name :
    ((diskOpen ((diskOpen c4fs0 0 ("a")).2) 1 ("a")).2).index
        = [⟨1, ("a")⟩, ⟨0, ("a")⟩] ∧
    (((diskOpen ((diskOpen c4fs0 0 ("a")).2) 1 ("a")).2).index.countP
        (fun x => x.name == ("a"))) = 2 := by
  exact ⟨rfl, rfl⟩

/-- C7: refuted on the code as written (the spec states the intent).
os.O_RDONLY is 0, so isFlagSet(flags, O_RDONLY) is false for every flags
value and cache.FS.OpenFile always delegates straight to the store tier:
no open, read-only ones included, ever routes through the cascading open. -/
theorem c7_openfile_never_cascades :
    (∀ flags : Nat, isFlagSet flags O_RDONLY = false) ∧
    (∀ (cacheT storeT : Tier) (name : String) (flags : Nat),
      cfsOpenFile cacheT storeT name flags = storeT.openFileT name flags) := by
  have h : ∀ flags : Nat, isFlagSet flags O_RDONLY = false := by
    intro flags
    simp [isFlagSet, O_RDONLY]
  exact ⟨h, fun cacheT storeT name flags => by simp [cfsOpenFile, h]⟩

/-- A disk tier for the C8 scenario: root "cache", one blob "cache/a.txt". -/
def c8fs : DiskFS := ⟨("cache"), [], [(("cache/a.txt"), [7])]⟩

/-- C8: refuted on the code as written (the spec states the intent).
Open("a.txt") yields the blob at cache/a.txt, but ReadFile("a.txt") joins
the location twice and looks for cache/cache/a.txt, which does not exist -
so readFile is not open + read-to-end of the same name. -/
theorem c8_readfile_double_joins_location :
    (diskOpen c8fs 0 ("a.txt")).1 = .ok [7] ∧
    (diskReadFile c8fs 0 ("a.txt")).1 = .error .notExist := by
  exact ⟨rfl, rfl⟩

/-- A fresh Simple holding the single file "a" with content "hi". -/
def c9s : Simple := (writeFileSimple (newSimple []) ("a") [104, 105]).2

/-- C9: refuted on the code as written (the spec states the intent). Open
returns the stored node itself, so the read cursor is shared between
handles: the first open + read-to-end returns the whole content, and a
second open + read-to-end of the same path returns nothing, because the
first read left the shared offset at the end. -/
theorem c9_second_read_to_end_is_empty :
    (readAllViaOpen c9s ("a")).1 = .ok [104, 105] ∧
    (readAllViaOpen (readAllViaOpen c9s ("a")).2 ("a")).1 = .ok [] := by
  exact ⟨rfl, rfl⟩

/-- A disk tier for the C10 contrast conjunct. -/
def c10fs : DiskFS := ⟨("d"), [], [(("d/x"), [1])]⟩

/-- C10: confirmed. disk.FS.Stat leaves the whole tier state - in
particular the expiration index - untouched for every name, while (for
contrast) an Open of an existing name does modify the index. -/
theorem c10_stat_never_touches_index :
    (∀ (fs : DiskFS) (name : String), (diskStat fs name).2 = fs) ∧
    ((diskOpen c10fs 0 ("x")).2).index ≠ c10fs.index := by
  constructor
  · intro fs name
    unfold diskStat
    cases osLookup fs.backing (pathJoin fs.location name) <;> rfl
  · decide

/-- C6: confirmed. The coordinator's ReadFile returns the cache tier's
bytes whenever the cache read succeeds, and on any cache error it returns
the store tier's result - the store's bytes on success and the store's
error (never the cache's) on failure. -/
theorem c6_readfile_cache_first_store_fallback
    (cacheT storeT : Tier) (name : String) :
    (∀ b : Bytes, cacheT.readFileT name = .ok b →
      cfsReadFile cacheT storeT name = .ok b) ∧
    (∀ e : FsErr, cacheT.readFileT name = .error e →
      cfsReadFile cacheT storeT name = storeT.readFileT name) := by
  constructor <;> intro x h <;> simp [cfsReadFile, h]

/-- A cache tier whose reads always succeed with [1]. -/
def tierCacheOk : Tier :=
  ⟨fun _ => .ok [1], fun _ => .ok [1], fun _ _ => .ok [1]⟩

/-- A cache tier whose reads always fail with its own error. -/
def tierCacheErr : Tier :=
  ⟨fun _ => .error (.msg ("cache boom")), fun _ => .error .notExist,
   fun _ _ => .error .notExist⟩

/-- A store tier whose reads always fail with its own error. -/
def tierStoreErr : Tier :=
  ⟨fun _ => .error (.msg ("store boom")), fun _ => .error .notExist,
   fun _ _ => .error .notExist⟩

/-- Witness for C6: on a cache hit the cache bytes come back; when both
tiers fail the error surfaced is the store's, not the cache's. -/
theorem c6_witness :
    cfsReadFile tierCacheOk tierStoreErr ("n") = .ok [1] ∧
    cfsReadFile tierCacheErr tierStoreErr ("n") = .error (.msg ("store boom")) := by
  refine ⟨(c6_readfile_cache_first_store_fallback tierCacheOk tierStoreErr ("n")).1 [1] rfl, ?_⟩
  exact ((c6_readfile_cache_first_store_fallback tierCacheErr tierStoreErr
    ("n")).2 (.msg ("cache boom")) rfl).trans rfl

theorem splitChars_ne_nil (sep : Char) (cs : List Char) :
    splitChars sep cs ≠ [] := by
  cases cs with
  | nil => simp [splitChars]
  | cons c rest =>
    simp only [splitChars]
    split
    · simp
    · split <;> simp

theorem goSplit_ne_nil (s : String) (sep : Char) : goSplit s sep ≠ [] := by
  simp [goSplit, splitChars_ne_nil]

theorem search_ok_isDir {d g : SFile} {nm : String}
    (h : d.search nm = .ok g) : d.isDir = true := by
  unfold SFile.search at h
  by_cases hd : d.isDir
  · exact hd
  · simp [hd] at h

/-- A successful lookup of a nonempty path implies the WriteFile walk over
the same segments stops with ErrExist and builds nothing: every
intermediate Search hits (and hits a directory), and the terminal Search
hits. -/
theorem writeAt_exist_of_walkPath :
    ∀ (segs : List String) (dir f : SFile) (c : Bytes), segs ≠ [] →
      walkPath dir segs = .ok f → writeAt dir segs c = .error .exist := by
  intro segs
  induction segs with
  | nil => intro _ _ _ h; exact absurd rfl h
  | cons p rest ih =>
    intro dir f c _ hwalk
    cases hs : dir.search p with
    | error e =>
      simp only [walkPath, hs] at hwalk
      exact Except.noConfusion hwalk
    | ok sub =>
      simp only [walkPath, hs] at hwalk
      cases rest with
      | nil =>
        simp [writeAt, hs]
      | cons r rs =>
        have hdir : sub.isDir = true := by
          cases hr : sub.search r with
          | error e =>
            simp only [walkPath, hr] at hwalk
            exact Except.noConfusion hwalk
          | ok g => exact search_ok_isDir hr
        have hrec := ih sub f c (by simp) hwalk
        simp [writeAt, hs, hdir, hrec]

/-- C5: confirmed. Writing any path on a frozen store fails with the
Locked error and leaves the store untouched; writing any well-formed path
(nonempty, not separator-terminated) whose terminal node already exists on
a non-frozen store fails with fs.ErrExist and leaves the store untouched. -/
theorem c5_write_once_and_locked_after_freeze :
    (∀ (hash : PearsonHash) (s : Simple) (name : String) (content : Bytes),
      writeFileSimple (roSimple hash s) name content
        = (.error .locked, roSimple hash s)) ∧
    (∀ (s : Simple) (name : String) (content : Bytes) (f : SFile),
      s.ro = false → name ≠ ("") → endsSlash name = false →
      walkPath s.root (writeSegs name) = .ok f →
      writeFileSimple s name content = (.error .exist, s)) := by
  constructor
  · intro hash s name content
    have hro : (roSimple hash s).ro = true := by
      simp only [roSimple]
      split <;> rfl
    simp [writeFileSimple, hro]
  · intro s name content f hro hname hslash hwalk
    have hexist := writeAt_exist_of_walkPath (writeSegs name) s.root f content
      (goSplit_ne_nil _ _) hwalk
    simp [writeFileSimple, hro, hname, hslash, hexist]

/-- The frozen empty store used by the C5 witness. -/
def c5locked : Simple := roSimple hashZero (newSimple [])

/-- A store already holding the file "a" (content [5]). -/
def c5exist : Simple := (writeFileSimple (newSimple []) ("a") [5]).2

/-- Witness for C5 at concrete inputs: a frozen store rejects a write with
the Locked error, and rewriting the existing path "a" fails with ErrExist;
both leave the store as it was. -/
theorem c5_witness :
    writeFileSimple c5locked ("x") [1] = (.error .locked, c5locked) ∧
    writeFileSimple c5exist ("a") [9] = (.error .exist, c5exist) := by
  constructor
  · exact c5_write_once_and_locked_after_freeze.1 hashZero (newSimple [])
      ("x") [1]
  · exact c5_write_once_and_locked_after_freeze.2 c5exist ("a") [9]
      (.mk ("a") [5] 0 false []) rfl (by decide) rfl rfl

theorem expireSame_iff (a b : ExpireKey) :
    expireSame a b = true ↔ a.time = b.time := by
  simp only [expireSame, expireLess, Bool.and_eq_true, Bool.not_eq_true',
    decide_eq_false_iff_not, not_lt]
  omega

/-- One ReplaceOrInsert preserves "at most one entry per time": the items it
replaces are exactly those whose time equals the new key's, so per-time
multiplicities never grow past one. -/
theorem replaceOrInsert_per_time (l : List ExpireKey) (k : ExpireKey) (t : Int)
    (h : l.countP (fun x => x.time == t) ≤ 1) :
    (replaceOrInsert l k).countP (fun x => x.time == t) ≤ 1 := by
  unfold replaceOrInsert
  by_cases hany : l.any (fun x => expireSame x k) = true
  · simp only [hany, if_true]
    rw [List.countP_map]
    have hcong : l.countP (fun x => (if expireSame x k then k else x).time == t)
        = l.countP (fun x => x.time == t) := by
      refine List.countP_congr ?_
      intro a _
      by_cases hsame : expireSame a k = true
      · have := (expireSame_iff a k).1 hsame
        simp [hsame, this]
      · simp [hsame]
    exact le_of_eq_of_le hcong h
  · rw [if_neg hany, List.countP_cons]
    by_cases ht : (k.time == t) = true
    · have hz : l.countP (fun x => x.time == t) = 0 := by
        refine List.countP_eq_zero.2 ?_
        intro a ha hp
        refine hany (List.any_eq_true.2 ⟨a, ha, ?_⟩)
        have hat : a.time = t := by simpa using hp
        have hkt : k.time = t := by simpa using ht
        exact (expireSame_iff a k).2 (by omega)
      simp [hz, ht]
    · rw [if_neg ht]
      omega

/-- C4 amended: after any sequence of touches the expiration index holds at
most one entry per TIMESTAMP (not per name): an upsert replaces a prior
entry exactly when that entry carries the same last-touch time, whatever
its name, and a touch at a fresh time always adds a new entry. -/
theorem c4_amended_at_most_one_entry_per_time
    (ks : List ExpireKey) (t : Int) :
    ((ks.foldl replaceOrInsert []).countP (fun x => x.time == t)) ≤ 1 := by
  suffices h : ∀ (ks : List ExpireKey) (l : List ExpireKey),
      (∀ u : Int, l.countP (fun x => x.time == u) ≤ 1) →
      ∀ u : Int, ((ks.foldl replaceOrInsert l).countP (fun x => x.time == u)) ≤ 1 by
    exact h ks [] (by simp) t
  intro ks
  induction ks with
  | nil => intro l hl u; simpa using hl u
  | cons k rest ih =>
    intro l hl u
    exact ih (replaceOrInsert l k)
      (fun v => replaceOrInsert_per_time l k v (hl v)) u

/-- The store NewSimple(WithPearson()) is documented to produce: pearson
set (the first conjunct of the C2 theorem shows the source instead drops
the option, so this intended state is forced by hand here). -/
def c2start : Simple := { newSimple [withPearson] with pearson := true }

/-- The intended Pearson store after writing "a" (content [1]) and "b"
(content [2]). -/
def c2pre : Simple :=
  (writeFileSimple ((writeFileSimple c2start ("a") [1]).2) ("b") [2]).2

/-- C2: refuted on the code as written (the spec states the intent). First,
NewSimple never applies its options, so a store "constructed with the
Pearson fast-lookup option" never has a fast table at all, contradicting
WithPearson's documentation. Second, even on the intended store (pearson
forced on, files "a" and "b"), RO builds the table modulo
len(previous cache) + 1 = 1 - putting every file in slot 0 - while Open
reads it back modulo items + 1 = 3, so under the claim's own injectivity
hypothesis the post-freeze lookup of "a" never agrees with the pre-freeze
tree lookup: slot 0 holds "b"'s node and every other outcome is an error. -/
theorem c2_pearson_fast_lookup_broken :
    (newSimple [withPearson]).pearson = false ∧
    ∀ hash : PearsonHash, hash ("a") % 3 ≠ hash ("b") % 3 →
      readFileSimple hash (roSimple hash c2pre) ("a")
        ≠ readFileSimple hash c2pre ("a") := by
  constructor
  · rfl
  · intro hash hinj
    have hpre : readFileSimple hash c2pre ("a") = .ok [1] := rfl
    have hc2 : c2pre =
        ⟨.mk (".") [] 0 true
          [.mk ("a") [1] 0 false [], .mk ("b") [2] 0 false []],
         false, true, [], 2⟩ := rfl
    have hw : walkCollect (".")
        (.mk (".") [] 0 true
          [.mk ("a") [1] 0 false [], .mk ("b") [2] 0 false []])
        = [(("a"), .mk ("a") [1] 0 false []),
           (("b"), .mk ("b") [2] 0 false [])] := by
      simp [walkCollect, joinPath, List.attach, List.attachWith, List.pmap,
        SFile.name, SFile.isDir]
    have hro : roSimple hash c2pre =
        ⟨.mk (".") [] 0 true
          [.mk ("a") [1] 0 false [], .mk ("b") [2] 0 false []],
         true, true, [some (.mk ("b") [2] 0 false []), none], 2⟩ := by
      rw [hc2]
      simp only [roSimple, hw]
      simp [List.replicate, Nat.mod_one]
    rw [hpre, hro]
    have h3 : hash ("a") % 3 < 3 := Nat.mod_lt _ (by norm_num)
    rcases hn : hash ("a") % 3 with _ | _ | m
    · simp [readFileSimple, openSimple, hn, SFile.isDir, SFile.content]
    · simp [readFileSimple, openSimple, hn, SFile.isDir, SFile.content]
    · rcases m with _ | m
      · simp [readFileSimple, openSimple, hn, SFile.isDir, SFile.content]
      · rw [hn] at h3
        omega

/-- A concrete hash realizing the claim's injectivity hypothesis for the
file set of c2pre. -/
def hashAB : PearsonHash := fun s => if s = ("a") then 0 else 1

/-- Witness for C2 at a concrete hash: the injectivity hypothesis holds,
yet the post-freeze lookup of "a" disagrees with the pre-freeze one. -/
theorem c2_witness :
    hashAB ("a") % 3 ≠ hashAB ("b") % 3 ∧
    readFileSimple hashAB (roSimple hashAB c2pre) ("a")
      ≠ readFileSimple hashAB c2pre ("a") :=
  ⟨by decide, c2_pearson_fast_lookup_broken.2 hashAB (by decide)⟩

end FsSpec
